import Mathlib

/-!
Shallow embedding of the habit-streak and savings-goal core of the
sparkos application (src/models/user.py, src/models/wallet.py,
src/models/habit.py, src/habits/__init__.py), together with theorems
settling the specification claims about it.

Python `float`/`Decimal` money amounts are embedded as exact rationals
(`ℚ`); calendar dates as a `PyDate` record mirroring `datetime.date`;
timestamps (`datetime.utcnow()`) as opaque `Nat` ticks.  Fallible code is
embedded in `Except PyError`; a reference to a name that the enclosing
module does not import is a Python `NameError`, which we make explicit by
recording each module's imported-name list from its source and branching
on membership at the point of use.
-/

namespace SparkOS

/-- Python runtime errors that the embedded code paths can raise. -/
inductive PyError where
  | nameError (n : String)
  | attributeError (n : String)
  | notFound
  | forbidden
deriving DecidableEq, Repr

/-- `datetime.date`: a calendar date. -/
structure PyDate where
  year : Int
  month : Nat
  day : Nat
deriving DecidableEq, Repr

/-- Lexicographic order on dates, as `datetime.date` comparison behaves. -/
def PyDate.le (a b : PyDate) : Bool :=
  a.year < b.year ||
    (a.year == b.year &&
      (a.month < b.month || (a.month == b.month && a.day ≤ b.day)))

/-- Gregorian leap-year rule used by `datetime`. -/
def isLeap (y : Int) : Bool :=
  (y % 4 == 0 && y % 100 != 0) || (y % 400 == 0)

/-- Number of days in a month, as `datetime` computes it. -/
def daysInMonth (y : Int) (m : Nat) : Nat :=
  if m = 2 then (if isLeap y then 29 else 28)
  else if m = 4 ∨ m = 6 ∨ m = 9 ∨ m = 11 then 30
  else 31

/-- `d - timedelta(days=1)` for a date with `day ≥ 1`. -/
def PyDate.predDay (d : PyDate) : PyDate :=
  if 1 < d.day then ⟨d.year, d.month, d.day - 1⟩
  else if 1 < d.month then ⟨d.year, d.month - 1, daysInMonth d.year (d.month - 1)⟩
  else ⟨d.year - 1, 12, 31⟩

/-! ## User accounts — src/models/user.py -/

/-- The `User` columns the core touches: `xp_points` and `level`
(`src/models/user.py`, lines 21–22; both Python ints). -/
structure UserState where
  id : Int
  xp_points : Int
  level : Int
deriving DecidableEq, Repr

/-- `User.level_up` (src/models/user.py lines 81–86): increment `level`. -/
def UserState.level_up (u : UserState) : UserState :=
  { u with level := u.level + 1 }

/-- `User.check_level_up` (src/models/user.py lines 75–79):
`xp_needed = level * 100`; level up once if `xp_points >= xp_needed`. -/
def UserState.check_level_up (u : UserState) : UserState :=
  let xp_needed := u.level * 100
  if u.xp_points ≥ xp_needed then u.level_up else u

/-- `User.add_xp` (src/models/user.py lines 69–73): add the points, then
run the level-up check once. -/
def UserState.add_xp (u : UserState) (points : Int) : UserState :=
  UserState.check_level_up { u with xp_points := u.xp_points + points }

/-! ## Savings goals — src/models/wallet.py -/

/-- `TransactionType` enum (src/models/wallet.py lines 6–10). -/
inductive TransactionType where
  | income
  | expense
  | transfer
deriving DecidableEq, Repr

/-- The `Transaction` columns the aggregate and goal logic read
(src/models/wallet.py lines 42–54). -/
structure Txn where
  user_id : Int
  amount : ℚ
  ttype : TransactionType
  date : PyDate
  savings_goal_id : Option Int
deriving DecidableEq, Repr

/-- The `SavingsGoal` columns the progress logic reads
(src/models/wallet.py lines 122–134), with `txs` holding the amounts of
the transactions linked to the goal (its `transactions` relationship). -/
structure GoalState where
  user_id : Int
  target_amount : ℚ
  txs : List ℚ
  is_completed : Bool
  completed_at : Option Nat
deriving DecidableEq, Repr

/-- `SavingsGoal.get_saved_amount` (src/models/wallet.py lines 152–158):
`0.0` for an empty transaction list, else the sum of the amounts. -/
def GoalState.get_saved_amount (g : GoalState) : ℚ :=
  if g.txs.isEmpty then 0 else g.txs.sum

/-- `SavingsGoal.progress` (src/models/wallet.py lines 144–150): `0.0`
when `target_amount ≤ 0` or the saved amount is `≤ 0`, else
`min(100, saved/target * 100)`. -/
def GoalState.progress (g : GoalState) : ℚ :=
  let saved := g.get_saved_amount
  if g.target_amount ≤ 0 ∨ saved ≤ 0 then 0
  else min 100 (saved / g.target_amount * 100)

/-- The body of `SavingsGoal.add_transaction` after the date default has
been resolved (src/models/wallet.py lines 165–184): link a new
transaction carrying `amount` to the goal, recompute
`saved_amount = get_saved_amount() + amount` (the fresh row is not yet in
the relationship collection, hence the explicit `+ amount`), and latch
completion when the goal was not yet completed and the new saved amount
reaches the target. -/
def GoalState.add_transaction_core (g : GoalState) (amount : ℚ) (now : Nat) :
    GoalState :=
  let g1 := { g with txs := g.txs ++ [amount] }
  let saved_amount := g.get_saved_amount + amount
  if g.is_completed = false ∧ saved_amount ≥ g.target_amount then
    { g1 with is_completed := true, completed_at := some now }
  else g1

/-- `SavingsGoal.add_transaction(amount, description, date=None, notes)`
(src/models/wallet.py lines 160–184).  The `date` parameter shadows the
imported `date` class, so the `date is None` branch executes
`date = date.today()` on the `None` argument and raises
`AttributeError: 'NoneType' object has no attribute 'today'`. -/
def GoalState.add_transaction (g : GoalState) (amount : ℚ) (d : Option PyDate)
    (now : Nat) : Except PyError GoalState :=
  match d with
  | none => .error (.attributeError "today")
  | some _ => .ok (g.add_transaction_core amount now)

/-- An operation later applied to a savings goal: a contribution through
`add_transaction` with an explicit date, or removal of one linked
transaction.

Modelled from the spec: transaction removal is performed by out-of-scope
wallet code not present under src/ (the spec's invariant "once
`is_completed` becomes true it never reverts, even if later transactions
are removed" and §6's persistence collaborator); removing a linked
transaction drops it from the goal's transaction set and runs no goal
logic. -/
inductive GoalOp where
  | contribute (amount : ℚ) (d : PyDate) (now : Nat)
  | removeTx (i : Nat)
deriving DecidableEq, Repr

/-- Apply one goal operation to the goal state. -/
def applyGoalOp (g : GoalState) (op : GoalOp) : GoalState :=
  match op with
  | .contribute amount _ now => g.add_transaction_core amount now
  | .removeTx i => { g with txs := g.txs.eraseIdx i }

/-- names bound at the top of src/models/wallet.py (its import lines,
lines 1–4): `timedelta` is absent. -/
def walletModuleImports : List String :=
  ["datetime", "date", "Enum", "db", "hybrid_property"]

/-- The aggregate arithmetic of `Transaction.get_monthly_summary`
(src/models/wallet.py lines 89–115) in isolation: last day of the month
via the December rollover, filter the user's rows to the closed interval,
sum by type, savings = income − expenses. -/
def monthly_summary_core (user_id : Int) (year : Int) (month : Nat)
    (txs : List Txn) : ℚ × ℚ × ℚ :=
  let first_day : PyDate := ⟨year, month, 1⟩
  let last_day : PyDate :=
    if month = 12 then PyDate.predDay ⟨year + 1, 1, 1⟩
    else PyDate.predDay ⟨year, month + 1, 1⟩
  let rows := txs.filter fun t =>
    t.user_id == user_id && first_day.le t.date && t.date.le last_day
  let total_income :=
    ((rows.filter fun t => t.ttype == .income).map Txn.amount).sum
  let total_expenses :=
    ((rows.filter fun t => t.ttype == .expense).map Txn.amount).sum
  (total_income, total_expenses, total_income - total_expenses)

/-- `Transaction.get_monthly_summary(user_id, year, month)`
(src/models/wallet.py lines 82–115) for explicit year and month: after
computing `first_day`, both month-end branches evaluate
`timedelta(days=1)`, and `timedelta` is not among the module's imports,
so every call raises `NameError: name 'timedelta' is not defined` before
any row is aggregated. -/
def get_monthly_summary (user_id : Int) (year : Int) (month : Nat)
    (txs : List Txn) : Except PyError (ℚ × ℚ × ℚ) :=
  if walletModuleImports.contains "timedelta" then
    .ok (monthly_summary_core user_id year month txs)
  else .error (.nameError "timedelta")

/-! ## Habit engine — src/habits/__init__.py with src/models/habit.py

The habits blueprint calls `habit.update_streak(completed)` and
`habit.get_current_streak()`; neither method is defined on the `Habit`
model under src/, so both are modelled from the spec (§4.1) below. -/

/-- The `Habit` columns the toggle operation touches
(src/models/habit.py lines 7–15). -/
structure HabitRec where
  user_id : Int
  current_streak : Nat
  longest_streak : Nat
  last_completed : Option Nat
deriving DecidableEq, Repr

/-- Modelled from the spec: `Habit.update_streak(completed)` is called by
`complete_habit` (src/habits/__init__.py line 232) but is not defined on
the `Habit` model under src/.  Per spec §4.1's toggle rule: on completion,
increment `current_streak`, set `longest_streak = max(longest_streak,
current_streak)` and `last_completed = now`; on un-completion, decrement
`current_streak` with a floor at 0 (`Nat` subtraction) and leave
`longest_streak` unchanged. -/
def HabitRec.update_streak (h : HabitRec) (completed : Bool) (now : Nat) :
    HabitRec :=
  if completed then
    let cs := h.current_streak + 1
    { h with current_streak := cs, longest_streak := max h.longest_streak cs,
             last_completed := some now }
  else
    { h with current_streak := h.current_streak - 1 }

/-- The state a habits request acts on: the `habits` table as an
association list from habit id to record, the `habit_completions` table
as a list of `(habit_id, completion_date)` rows, and the acting
(logged-in) user. -/
structure HabitsApp where
  habits : List (Int × HabitRec)
  completions : List (Int × PyDate)
  user : UserState
deriving DecidableEq, Repr

/-- `Habit.query.get(habit_id)`: first binding for the id. -/
def HabitsApp.lookupHabit (s : HabitsApp) (hid : Int) : Option HabitRec :=
  (s.habits.find? fun p => p.1 == hid).map Prod.snd

/-- Persist an updated habit record under its id (the ORM writes the
mutated row back on commit). -/
def setHabit (l : List (Int × HabitRec)) (hid : Int) (h : HabitRec) :
    List (Int × HabitRec) :=
  match l with
  | [] => []
  | p :: rest =>
    if p.1 = hid then (hid, h) :: rest else p :: setHabit rest hid h

/-- A completion row matches the queried habit and date
(`HabitCompletion.query.filter_by(habit_id=..., completion_date=...)`). -/
def matchesRow (hid : Int) (today : PyDate) (r : Int × PyDate) : Bool :=
  r.1 == hid && r.2 == today

/-- names bound at the top of src/habits/__init__.py (its import lines,
lines 1–12): `abort` is absent. -/
def habitsModuleImports : List String :=
  ["Blueprint", "render_template", "redirect", "url_for", "flash",
   "request", "jsonify", "login_required", "current_user", "datetime",
   "date", "timedelta", "func", "or_", "db", "Habit", "HabitCompletion",
   "Frequency", "User", "HabitForm", "HabitCompletionForm", "habits"]

/-- `complete_habit(habit_id)` (src/habits/__init__.py lines 194–246):
load the habit (404 when unknown); if it is not owned by the acting user
the handler executes `abort(403)`, but `abort` is not among the module's
imports, so that branch raises `NameError: name 'abort' is not defined`
instead of signalling 403; otherwise toggle today's completion row —
delete the existing row, or insert a new one and grant 10 XP — then run
`habit.update_streak(completed)` and commit.  Returns the mutated state
and the `completed` flag. -/
def complete_habit (s : HabitsApp) (habit_id : Int) (today : PyDate)
    (now : Nat) : Except PyError (HabitsApp × Bool) :=
  match s.lookupHabit habit_id with
  | none => .error .notFound
  | some habit =>
    if habit.user_id ≠ s.user.id then
      if habitsModuleImports.contains "abort" then .error .forbidden
      else .error (.nameError "abort")
    else
      match s.completions.find? (matchesRow habit_id today) with
      | some _ =>
        let habit1 := habit.update_streak false now
        .ok ({ s with
                completions := s.completions.eraseP (matchesRow habit_id today),
                habits := setHabit s.habits habit_id habit1 }, false)
      | none =>
        let user1 := s.user.add_xp 10
        let habit1 := habit.update_streak true now
        .ok ({ s with
                completions := s.completions ++ [(habit_id, today)],
                habits := setHabit s.habits habit_id habit1,
                user := user1 }, true)

/-- One toggle request in a sequence: the habit id, the request date and
the timestamp.  A request that raises (unknown habit, ownership failure)
is rolled back and leaves the state unchanged (spec §5: the operation's
writes are one atomic unit). -/
def stepToggle (s : HabitsApp) (op : Int × PyDate × Nat) : HabitsApp :=
  match complete_habit s op.1 op.2.1 op.2.2 with
  | .ok (s1, _) => s1
  | .error _ => s

/-! ## Streak recomputation — spec §4.1 backward scan

`Habit.get_current_streak()` is called by the habits index view
(src/habits/__init__.py line 39) but is not defined on the `Habit` model
under src/; it is modelled from the spec below.  Days are numbered from
the epoch of the habit's history; the due-day schedule is an arbitrary
predicate on days, covering the DAILY / WEEKLY / MONTHLY rules of §4.1. -/

/-- Modelled from the spec: `Habit.get_current_streak()` — "walk
completion dates backward from the most recent due day; the streak is the
count of consecutive due days, scanning backward from today, for which a
completion exists, stopping at the first due day with no completion.
Non-due days are skipped without breaking the streak." -/
def get_current_streak (due : Nat → Bool) (completed : Nat → Bool) :
    Nat → Nat
  | 0 => if due 0 then (if completed 0 then 1 else 0) else 0
  | t + 1 =>
    if due (t + 1) then
      (if completed (t + 1) then get_current_streak due completed t + 1
       else 0)
    else get_current_streak due completed t

/-- The streak counter and completion set of one habit, as the toggle
operations maintain them incrementally. -/
structure StreakState where
  current_streak : Nat
  completedDays : List Nat
deriving DecidableEq, Repr

/-- One toggle of day `d`, as `complete_habit` performs it on a single
habit: delete the completion and decrement (floor 0), or insert it and
increment (the `longest_streak`/XP effects are irrelevant here). -/
def toggleDay (st : StreakState) (d : Nat) : StreakState :=
  if d ∈ st.completedDays then
    { current_streak := st.current_streak - 1,
      completedDays := st.completedDays.erase d }
  else
    { current_streak := st.current_streak + 1,
      completedDays := st.completedDays ++ [d] }

/-- The spec's habit-counter invariant: every habit row satisfies
`current_streak ≤ longest_streak`. -/
def habitInv (s : HabitsApp) : Prop :=
  ∀ p ∈ s.habits, p.2.current_streak ≤ p.2.longest_streak

instance habitInvDecidable (s : HabitsApp) : Decidable (habitInv s) :=
  inferInstanceAs
    (Decidable (∀ p ∈ s.habits, p.2.current_streak ≤ p.2.longest_streak))

/-- A small concrete application state used to instantiate theorems with
hypotheses: one habit (id 1, owner 7, streaks 2/3), no completions yet,
acting user 7. -/
def sampleApp : HabitsApp :=
  { habits := [(1, ⟨7, 2, 3, none⟩)], completions := [], user := ⟨7, 0, 1⟩ }

/-! ## Theorems -/

/-- The saved amount is nonnegative when every linked amount is. -/
theorem saved_amount_nonneg (g : GoalState) (h : ∀ a ∈ g.txs, 0 ≤ a) :
    0 ≤ g.get_saved_amount := by
  unfold GoalState.get_saved_amount
  split
  · exact le_refl 0
  · exact List.sum_nonneg h

/-- C10: `User.add_xp(points)` with `points ≥ 0` raises `xp_points` by
exactly `points`; the level rises by exactly one when the updated XP
reaches `level * 100` at the pre-call level, and is otherwise unchanged —
never more than one level per call. -/
theorem add_xp_level_spec (u : UserState) (points : Int) (h : 0 ≤ points) :
    (u.add_xp points).xp_points = u.xp_points + points ∧
    (u.add_xp points).level =
      (if u.level * 100 ≤ u.xp_points + points then u.level + 1 else u.level) ∧
    (u.add_xp points).level ≤ u.level + 1 := by
  unfold UserState.add_xp UserState.check_level_up UserState.level_up
  dsimp only
  split <;> simp_all <;> omega

/-- Witness for `add_xp_level_spec`: a user at level 1 with 95 XP gains
10 XP, crosses the 100-XP threshold and reaches level 2. -/
theorem add_xp_level_spec_witness :
    ((⟨1, 95, 1⟩ : UserState).add_xp 10).xp_points = 95 + 10 ∧
    ((⟨1, 95, 1⟩ : UserState).add_xp 10).level =
      (if (1 : Int) * 100 ≤ 95 + 10 then 1 + 1 else 1) ∧
    ((⟨1, 95, 1⟩ : UserState).add_xp 10).level ≤ 1 + 1 :=
  add_xp_level_spec ⟨1, 95, 1⟩ 10 (by decide)

/-- C3: progress is 0 when the target is nonpositive, otherwise
`min(100, saved/target*100)`; it always lies in `[0, 100]` and equals 100
exactly when `saved_amount ≥ target_amount > 0`.  The hypothesis records
the data-model constraint that linked amounts are entered as nonnegative
magnitudes (enforced by the wallet forms' `NumberRange(min=0.01)`). -/
theorem progress_bounds_spec (g : GoalState) (h : ∀ a ∈ g.txs, 0 ≤ a) :
    (g.target_amount ≤ 0 → g.progress = 0) ∧
    (0 < g.target_amount →
      g.progress = min 100 (g.get_saved_amount / g.target_amount * 100)) ∧
    (0 ≤ g.progress ∧ g.progress ≤ 100) ∧
    (g.progress = 100 ↔
      g.target_amount ≤ g.get_saved_amount ∧ 0 < g.target_amount) := by
  have hs : 0 ≤ g.get_saved_amount := saved_amount_nonneg g h
  have hprog : g.progress =
      if g.target_amount ≤ 0 ∨ g.get_saved_amount ≤ 0 then 0
      else min 100 (g.get_saved_amount / g.target_amount * 100) := rfl
  by_cases ht : g.target_amount ≤ 0
  · rw [hprog, if_pos (Or.inl ht)]
    refine ⟨fun _ => rfl, fun hlt => absurd ht (not_le.mpr hlt), ⟨le_refl 0, by norm_num⟩, ?_⟩
    constructor
    · intro h0; exact absurd h0 (by norm_num)
    · intro ⟨_, hlt⟩; exact absurd ht (not_le.mpr hlt)
  · have ht2 : 0 < g.target_amount := lt_of_not_le ht
    by_cases hz : g.get_saved_amount ≤ 0
    · have hzero : g.get_saved_amount = 0 := le_antisymm hz hs
      rw [hprog, if_pos (Or.inr hz)]
      refine ⟨fun h0 => absurd h0 ht, fun _ => ?_, ⟨le_refl 0, by norm_num⟩, ?_⟩
      · rw [hzero, zero_div, zero_mul]
        exact (min_eq_right (by norm_num)).symm
      constructor
      · intro h0; exact absurd h0 (by norm_num)
      · intro ⟨hge, _⟩
        rw [hzero] at hge
        exact absurd (lt_of_lt_of_le ht2 hge) (lt_irrefl 0)
    · have hs2 : 0 < g.get_saved_amount := lt_of_not_le hz
      rw [hprog, if_neg (by push_neg; exact ⟨ht2, hs2⟩)]
      have hx : 0 ≤ g.get_saved_amount / g.target_amount * 100 := by positivity
      refine ⟨fun h0 => absurd h0 ht, fun _ => rfl,
        ⟨le_min (by norm_num) hx, min_le_left _ _⟩, ?_⟩
      have hiff : min (100 : ℚ) (g.get_saved_amount / g.target_amount * 100) = 100
          ↔ 100 ≤ g.get_saved_amount / g.target_amount * 100 := min_eq_left_iff
      rw [hiff]
      constructor
      · intro hge
        refine ⟨?_, ht2⟩
        rw [div_mul_eq_mul_div, le_div_iff ht2] at hge
        nlinarith
      · intro ⟨hge, _⟩
        rw [div_mul_eq_mul_div, le_div_iff ht2]
        nlinarith

/-- Witness for `progress_bounds_spec`: a goal with target 100 and linked
contributions 50 and 60 (saved 110) has progress 100. -/
theorem progress_bounds_spec_witness :
    ((⟨1, 100, [50, 60], false, none⟩ : GoalState).target_amount ≤ 0 →
      (⟨1, 100, [50, 60], false, none⟩ : GoalState).progress = 0) ∧
    (0 < (⟨1, 100, [50, 60], false, none⟩ : GoalState).target_amount →
      (⟨1, 100, [50, 60], false, none⟩ : GoalState).progress =
        min 100 ((⟨1, 100, [50, 60], false, none⟩ : GoalState).get_saved_amount /
          (⟨1, 100, [50, 60], false, none⟩ : GoalState).target_amount * 100)) ∧
    (0 ≤ (⟨1, 100, [50, 60], false, none⟩ : GoalState).progress ∧
      (⟨1, 100, [50, 60], false, none⟩ : GoalState).progress ≤ 100) ∧
    ((⟨1, 100, [50, 60], false, none⟩ : GoalState).progress = 100 ↔
      (⟨1, 100, [50, 60], false, none⟩ : GoalState).target_amount ≤
        (⟨1, 100, [50, 60], false, none⟩ : GoalState).get_saved_amount ∧
      0 < (⟨1, 100, [50, 60], false, none⟩ : GoalState).target_amount) :=
  progress_bounds_spec ⟨1, 100, [50, 60], false, none⟩ (by decide)

/-- C5: `add_contribution` with an explicit date links a new transaction
to the goal, recomputes the saved amount including it, and latches
completion (stamping `completed_at = now`) exactly when the goal was not
already completed and the new saved amount reaches the target; in the
target-100 scenario, contributing 40 then 65 yields saved 105, progress
100, `is_completed` and a stamped `completed_at`. -/
theorem add_contribution_spec :
    (∀ (g : GoalState) (amount : ℚ) (d : PyDate) (nowT : Nat),
      ∃ g1, g.add_transaction amount (some d) nowT = .ok g1 ∧
        g1.txs = g.txs ++ [amount] ∧
        g1.is_completed =
          (g.is_completed ||
            decide (g.get_saved_amount + amount ≥ g.target_amount)) ∧
        g1.completed_at =
          (if g.is_completed = false ∧
              g.get_saved_amount + amount ≥ g.target_amount
           then some nowT else g.completed_at)) ∧
    ((((⟨1, 100, [], false, none⟩ : GoalState).add_transaction_core 40
        5).add_transaction_core 65 6).get_saved_amount = 105 ∧
     (((⟨1, 100, [], false, none⟩ : GoalState).add_transaction_core 40
        5).add_transaction_core 65 6).progress = 100 ∧
     (((⟨1, 100, [], false, none⟩ : GoalState).add_transaction_core 40
        5).add_transaction_core 65 6).is_completed = true ∧
     (((⟨1, 100, [], false, none⟩ : GoalState).add_transaction_core 40
        5).add_transaction_core 65 6).completed_at = some 6) := by
  constructor
  · intro g amount d nowT
    unfold GoalState.add_transaction GoalState.add_transaction_core
    dsimp only
    by_cases hc : g.is_completed = false ∧
        g.get_saved_amount + amount ≥ g.target_amount
    · rw [if_pos hc]
      refine ⟨_, rfl, rfl, ?_, ?_⟩
      · rw [hc.1]
        simp [hc.2]
      · rw [if_pos hc]
    · rw [if_neg hc]
      refine ⟨_, rfl, rfl, ?_, ?_⟩
      · cases hb : g.is_completed with
        | false =>
          have hnot : ¬ g.get_saved_amount + amount ≥ g.target_amount :=
            fun hle => hc ⟨hb, hle⟩
          simp [hnot]
        | true => simp
      · rw [if_neg hc]
  · have h1 : (⟨1, 100, [], false, none⟩ : GoalState).add_transaction_core 40 5 =
        ⟨1, 100, [40], false, none⟩ := by
      norm_num [GoalState.add_transaction_core, GoalState.get_saved_amount]
    have h2 : (⟨1, 100, [40], false, none⟩ : GoalState).add_transaction_core 65 6 =
        ⟨1, 100, [40, 65], true, some 6⟩ := by
      norm_num [GoalState.add_transaction_core, GoalState.get_saved_amount]
    rw [h1, h2]
    refine ⟨?_, ?_, rfl, rfl⟩
    · norm_num [GoalState.get_saved_amount]
    · norm_num [GoalState.progress, GoalState.get_saved_amount, min_def]

/-- C6: `Transaction.get_monthly_summary` references `timedelta`, which
src/models/wallet.py never imports, so a December 2023 summary request
over genuine December rows raises `NameError` instead of returning the
aggregate. -/
theorem monthly_summary_raises_name_error :
    get_monthly_summary 1 2023 12
      [⟨1, 50, .income, ⟨2023, 12, 5⟩, none⟩,
       ⟨1, 20, .expense, ⟨2023, 11, 30⟩, none⟩] =
      .error (.nameError "timedelta") := rfl

/-- The aggregate arithmetic itself (once `timedelta` resolves) is sound:
on a mixed November/December history the December summary counts only the
December-dated rows and reports `savings = income − expenses` exactly. -/
theorem monthly_summary_core_december_rollover :
    monthly_summary_core 1 2023 12
      [⟨1, 50, .income, ⟨2023, 12, 5⟩, none⟩,
       ⟨1, 80, .income, ⟨2023, 11, 28⟩, none⟩,
       ⟨1, 20, .expense, ⟨2023, 12, 31⟩, none⟩,
       ⟨1, 45, .expense, ⟨2023, 11, 30⟩, none⟩,
       ⟨2, 500, .income, ⟨2023, 12, 10⟩, none⟩] = (50, 20, 30) := by
  simp +decide [monthly_summary_core, PyDate.le, PyDate.predDay,
    daysInMonth, isLeap, List.filter,
    show (TransactionType.income == TransactionType.expense) = false from rfl,
    show (TransactionType.expense == TransactionType.income) = false from rfl]
  norm_num

/-- C9: a toggle request against a habit the acting user does not own is
rejected before any mutation, but it surfaces as
`NameError: name 'abort' is not defined` (the habits module never imports
`abort`), not as a 403 authorization signal; the state is untouched. -/
theorem ownership_violation_name_error :
    complete_habit
      { habits := [(1, ⟨7, 0, 0, none⟩)], completions := [],
        user := ⟨9, 0, 1⟩ } 1 ⟨2026, 1, 5⟩ 0 =
      .error (.nameError "abort") ∧
    stepToggle
      { habits := [(1, ⟨7, 0, 0, none⟩)], completions := [],
        user := ⟨9, 0, 1⟩ } (1, ⟨2026, 1, 5⟩, 0) =
      { habits := [(1, ⟨7, 0, 0, none⟩)], completions := [],
        user := ⟨9, 0, 1⟩ } := by
  constructor <;> rfl

/-- Replacing a present key with `setHabit` makes lookups of that key see
the new record. -/
theorem find?_setHabit_self (l : List (Int × HabitRec)) (hid : Int)
    (h : HabitRec) (hs : (l.find? fun p => p.1 == hid).isSome = true) :
    ((setHabit l hid h).find? fun p => p.1 == hid) = some (hid, h) := by
  induction l with
  | nil => simp [List.find?] at hs
  | cons p rest ih =>
    by_cases hp : p.1 = hid
    · simp [setHabit, if_pos hp, List.find?]
    · have hbf : (p.1 == hid) = false := by simp [hp]
      simp only [setHabit, if_neg hp, List.find?, hbf] at hs ⊢
      exact ih hs

/-- `setHabit` leaves lookups of every other key unchanged. -/
theorem find?_setHabit_ne (l : List (Int × HabitRec)) (hid hid2 : Int)
    (h : HabitRec) (hne : hid2 ≠ hid) :
    ((setHabit l hid h).find? fun p => p.1 == hid2) =
      l.find? fun p => p.1 == hid2 := by
  induction l with
  | nil => rfl
  | cons p rest ih =>
    by_cases hp : p.1 = hid
    · have h1 : (hid == hid2) = false := by
        simp
        exact fun he => hne he.symm
      have h2 : (p.1 == hid2) = false := by
        simp [hp]
        exact fun he => hne he.symm
      simp only [setHabit, if_pos hp, List.find?, h1, h2]
    · simp only [setHabit, if_neg hp, List.find?]
      cases hq : (p.1 == hid2) with
      | true => rfl
      | false => exact ih

/-- Every element of `setHabit l hid h` is an old element or the new
binding. -/
theorem mem_setHabit (l : List (Int × HabitRec)) (hid : Int) (h : HabitRec)
    (p : Int × HabitRec) (hp : p ∈ setHabit l hid h) :
    p ∈ l ∨ p = (hid, h) := by
  induction l with
  | nil => simp [setHabit] at hp
  | cons q rest ih =>
    by_cases hq : q.1 = hid
    · simp only [setHabit, if_pos hq] at hp
      rcases List.mem_cons.mp hp with rfl | hmem
      · right; rfl
      · left; exact List.mem_cons_of_mem _ hmem
    · simp only [setHabit, if_neg hq] at hp
      rcases List.mem_cons.mp hp with rfl | hmem
      · left; exact List.mem_cons_self _ _
      · rcases ih hmem with h1 | h2
        · left; exact List.mem_cons_of_mem _ h1
        · right; exact h2

/-- A successful habit lookup comes from a row of the habits table. -/
theorem lookupHabit_mem (s : HabitsApp) (hid : Int) (h : HabitRec)
    (hl : s.lookupHabit hid = some h) : ∃ k, (k, h) ∈ s.habits := by
  unfold HabitsApp.lookupHabit at hl
  cases hf : s.habits.find? fun p => p.1 == hid with
  | none => rw [hf] at hl; simp at hl
  | some q =>
    rw [hf] at hl
    simp only [Option.map] at hl
    have hq2 : q.2 = h := by
      cases hl
      rfl
    refine ⟨q.1, ?_⟩
    have hmem := List.mem_of_find?_eq_some hf
    rw [← hq2]
    simpa using hmem

/-- `add_xp` always adds exactly the given points to `xp_points`. -/
theorem add_xp_xp_points (u : UserState) (p : Int) :
    (u.add_xp p).xp_points = u.xp_points + p := by
  unfold UserState.add_xp UserState.check_level_up UserState.level_up
  dsimp only
  split <;> rfl

/-- C1: toggling a habit's completion for a date: when a completion row
for (habit, date) exists it is deleted, `current_streak` drops by 1 with
a floor at 0 (`Nat` subtraction), `longest_streak` is untouched and the
result is "uncompleted"; otherwise a row is inserted, `current_streak`
rises by 1, `longest_streak` becomes its max with the new streak,
`last_completed` is stamped to now and the result is "completed" with a
fixed 10-XP reward granted to the owner (`Habit.update_streak` is
modelled from the spec — see its doc comment). -/
theorem complete_habit_toggle_spec (s : HabitsApp) (hid : Int)
    (today : PyDate) (nowT : Nat) (habit : HabitRec)
    (hh : s.lookupHabit hid = some habit)
    (hown : habit.user_id = s.user.id) :
    ((∃ r, s.completions.find? (matchesRow hid today) = some r) →
      ∃ s1, complete_habit s hid today nowT = .ok (s1, false) ∧
        s1.completions = s.completions.eraseP (matchesRow hid today) ∧
        s1.lookupHabit hid = some
          { habit with current_streak := habit.current_streak - 1 } ∧
        s1.user = s.user) ∧
    (s.completions.find? (matchesRow hid today) = none →
      ∃ s1, complete_habit s hid today nowT = .ok (s1, true) ∧
        s1.completions = s.completions ++ [(hid, today)] ∧
        s1.lookupHabit hid = some
          ⟨habit.user_id, habit.current_streak + 1,
            max habit.longest_streak (habit.current_streak + 1),
            some nowT⟩ ∧
        s1.user = s.user.add_xp 10 ∧
        s1.user.xp_points = s.user.xp_points + 10) := by
  have hsome : (s.habits.find? fun p => p.1 == hid).isSome = true := by
    unfold HabitsApp.lookupHabit at hh
    cases hf : s.habits.find? fun p => p.1 == hid with
    | none => rw [hf] at hh; simp at hh
    | some q => rfl
  constructor
  · rintro ⟨r, hr⟩
    have hcomp : complete_habit s hid today nowT =
        .ok ({ s with
                completions := s.completions.eraseP (matchesRow hid today),
                habits := setHabit s.habits hid
                  (habit.update_streak false nowT) }, false) := by
      unfold complete_habit
      rw [hh]
      dsimp only
      rw [if_neg (not_ne_iff.mpr hown), hr]
    refine ⟨_, hcomp, rfl, ?_, rfl⟩
    unfold HabitsApp.lookupHabit
    dsimp only
    rw [find?_setHabit_self _ _ _ hsome]
    rfl
  · intro hr
    have hcomp : complete_habit s hid today nowT =
        .ok ({ s with
                completions := s.completions ++ [(hid, today)],
                habits := setHabit s.habits hid
                  (habit.update_streak true nowT),
                user := s.user.add_xp 10 }, true) := by
      unfold complete_habit
      rw [hh]
      dsimp only
      rw [if_neg (not_ne_iff.mpr hown), hr]
    refine ⟨_, hcomp, rfl, ?_, rfl, add_xp_xp_points s.user 10⟩
    unfold HabitsApp.lookupHabit
    dsimp only
    rw [find?_setHabit_self _ _ _ hsome]
    rfl

/-- Witness for `complete_habit_toggle_spec`: toggling habit 1 of
`sampleApp` (owned by the acting user, not yet completed today) inserts
the row, bumps the streak from 2 to 3, updates the longest streak to
`max 3 3` and grants 10 XP. -/
theorem complete_habit_toggle_spec_witness :
    ((∃ r, sampleApp.completions.find? (matchesRow 1 ⟨2026, 1, 5⟩) = some r) →
      ∃ s1, complete_habit sampleApp 1 ⟨2026, 1, 5⟩ 9 = .ok (s1, false) ∧
        s1.completions = sampleApp.completions.eraseP (matchesRow 1 ⟨2026, 1, 5⟩) ∧
        s1.lookupHabit 1 = some
          { (⟨7, 2, 3, none⟩ : HabitRec) with current_streak := 2 - 1 } ∧
        s1.user = sampleApp.user) ∧
    (sampleApp.completions.find? (matchesRow 1 ⟨2026, 1, 5⟩) = none →
      ∃ s1, complete_habit sampleApp 1 ⟨2026, 1, 5⟩ 9 = .ok (s1, true) ∧
        s1.completions = sampleApp.completions ++ [(1, ⟨2026, 1, 5⟩)] ∧
        s1.lookupHabit 1 = some ⟨7, 2 + 1, max 3 (2 + 1), some 9⟩ ∧
        s1.user = sampleApp.user.add_xp 10 ∧
        s1.user.xp_points = sampleApp.user.xp_points + 10) :=
  complete_habit_toggle_spec sampleApp 1 ⟨2026, 1, 5⟩ 9 ⟨7, 2, 3, none⟩
    (by decide) (by decide)

/-- Habit lookup only depends on the habits table. -/
theorem lookupHabit_habits_eq (s1 s2 : HabitsApp) (hid : Int)
    (h : s1.habits = s2.habits) : s1.lookupHabit hid = s2.lookupHabit hid := by
  unfold HabitsApp.lookupHabit
  rw [h]

/-- A successful lookup means the underlying `find?` is `some`. -/
theorem lookupHabit_isSome (s : HabitsApp) (hid : Int) (habit : HabitRec)
    (hh : s.lookupHabit hid = some habit) :
    (s.habits.find? fun p => p.1 == hid).isSome = true := by
  unfold HabitsApp.lookupHabit at hh
  cases hf : s.habits.find? fun p => p.1 == hid with
  | none => rw [hf] at hh; simp at hh
  | some q => rfl

/-- One toggle request either leaves the habits table unchanged (error
paths) or rewrites exactly the toggled habit's row with
`update_streak false` (row deleted) or `update_streak true` (row
inserted). -/
theorem stepToggle_habits_cases (s : HabitsApp) (op : Int × PyDate × Nat) :
    (stepToggle s op).habits = s.habits ∨
    ∃ habit, s.lookupHabit op.1 = some habit ∧
      ((stepToggle s op).habits =
          setHabit s.habits op.1 (habit.update_streak false op.2.2) ∨
       (stepToggle s op).habits =
          setHabit s.habits op.1 (habit.update_streak true op.2.2)) := by
  unfold stepToggle complete_habit
  cases hl : s.lookupHabit op.1 with
  | none => left; rfl
  | some habit =>
    dsimp only
    by_cases hown : habit.user_id ≠ s.user.id
    · rw [if_pos hown]
      left
      split
      · rename_i s1 b hx
        exfalso
        revert hx
        split <;> intro hx <;> cases hx
      · rfl
    · rw [if_neg hown]
      cases hf : s.completions.find? (matchesRow op.1 op.2.1) with
      | some r => exact Or.inr ⟨habit, rfl, Or.inl rfl⟩
      | none => exact Or.inr ⟨habit, rfl, Or.inr rfl⟩

/-- One toggle request either leaves the completions table unchanged
(error paths), erases the matching row, or appends the new row — and it
only appends when no matching row existed. -/
theorem stepToggle_completions_cases (s : HabitsApp) (op : Int × PyDate × Nat) :
    (stepToggle s op).completions = s.completions ∨
    (stepToggle s op).completions =
      s.completions.eraseP (matchesRow op.1 op.2.1) ∨
    ((stepToggle s op).completions = s.completions ++ [(op.1, op.2.1)] ∧
      s.completions.find? (matchesRow op.1 op.2.1) = none) := by
  unfold stepToggle complete_habit
  cases hl : s.lookupHabit op.1 with
  | none => left; rfl
  | some habit =>
    dsimp only
    by_cases hown : habit.user_id ≠ s.user.id
    · rw [if_pos hown]
      left
      split
      · rename_i s1 b hx
        exfalso
        revert hx
        split <;> intro hx <;> cases hx
      · rfl
    · rw [if_neg hown]
      cases hf : s.completions.find? (matchesRow op.1 op.2.1) with
      | some r => exact Or.inr (Or.inl rfl)
      | none => exact Or.inr (Or.inr ⟨rfl, rfl⟩)

/-- `update_streak` never lowers `longest_streak`. -/
theorem update_streak_longest_mono (h : HabitRec) (b : Bool) (n : Nat) :
    h.longest_streak ≤ (h.update_streak b n).longest_streak := by
  cases b with
  | false => exact le_refl _
  | true => exact le_max_left _ _

/-- `update_streak` preserves `current_streak ≤ longest_streak`. -/
theorem update_streak_inv (h : HabitRec) (b : Bool) (n : Nat)
    (hle : h.current_streak ≤ h.longest_streak) :
    (h.update_streak b n).current_streak ≤
      (h.update_streak b n).longest_streak := by
  cases b with
  | false => exact le_trans (Nat.sub_le _ _) hle
  | true => exact le_max_right _ _

/-- After one toggle, each present habit row came from a row of the
previous state, possibly passed through `update_streak`. -/
theorem stepToggle_lookup_back (s : HabitsApp) (op : Int × PyDate × Nat)
    (hid : Int) (h1 : HabitRec)
    (hl : (stepToggle s op).lookupHabit hid = some h1) :
    ∃ h0, s.lookupHabit hid = some h0 ∧
      (h1 = h0 ∨ ∃ b, h1 = h0.update_streak b op.2.2) := by
  rcases stepToggle_habits_cases s op with hsame | ⟨habit, hhab, hcase⟩
  · refine ⟨h1, ?_, Or.inl rfl⟩
    rw [← hl]
    exact (lookupHabit_habits_eq _ _ hid hsame).symm
  · by_cases heq : hid = op.1
    · subst heq
      have hs : (s.habits.find? fun p => p.1 == op.1).isSome = true :=
        lookupHabit_isSome s _ habit hhab
      rcases hcase with hset | hset
      · have hlv : (stepToggle s op).lookupHabit op.1 =
            some (habit.update_streak false op.2.2) := by
          unfold HabitsApp.lookupHabit
          rw [hset, find?_setHabit_self _ _ _ hs]
          rfl
        rw [hlv] at hl
        exact ⟨habit, hhab, Or.inr ⟨false, (Option.some.inj hl).symm⟩⟩
      · have hlv : (stepToggle s op).lookupHabit op.1 =
            some (habit.update_streak true op.2.2) := by
          unfold HabitsApp.lookupHabit
          rw [hset, find?_setHabit_self _ _ _ hs]
          rfl
        rw [hlv] at hl
        exact ⟨habit, hhab, Or.inr ⟨true, (Option.some.inj hl).symm⟩⟩
    · have heq2 : (stepToggle s op).lookupHabit hid = s.lookupHabit hid := by
        unfold HabitsApp.lookupHabit
        rcases hcase with hset | hset <;>
          rw [hset, find?_setHabit_ne _ _ _ _ heq]
      rw [heq2] at hl
      exact ⟨h1, hl, Or.inl rfl⟩

/-- After one toggle, each previously present habit row is still present,
possibly passed through `update_streak`. -/
theorem stepToggle_lookup_fwd (s : HabitsApp) (op : Int × PyDate × Nat)
    (hid : Int) (h0 : HabitRec) (hl : s.lookupHabit hid = some h0) :
    ∃ h1, (stepToggle s op).lookupHabit hid = some h1 ∧
      (h1 = h0 ∨ ∃ b, h1 = h0.update_streak b op.2.2) := by
  rcases stepToggle_habits_cases s op with hsame | ⟨habit, hhab, hcase⟩
  · refine ⟨h0, ?_, Or.inl rfl⟩
    rw [lookupHabit_habits_eq _ s hid hsame]
    exact hl
  · by_cases heq : hid = op.1
    · subst heq
      have hh0 : habit = h0 := Option.some.inj (hhab.symm.trans hl)
      subst hh0
      have hs : (s.habits.find? fun p => p.1 == op.1).isSome = true :=
        lookupHabit_isSome s _ habit hl
      rcases hcase with hset | hset
      · refine ⟨habit.update_streak false op.2.2, ?_, Or.inr ⟨false, rfl⟩⟩
        unfold HabitsApp.lookupHabit
        rw [hset, find?_setHabit_self _ _ _ hs]
        rfl
      · refine ⟨habit.update_streak true op.2.2, ?_, Or.inr ⟨true, rfl⟩⟩
        unfold HabitsApp.lookupHabit
        rw [hset, find?_setHabit_self _ _ _ hs]
        rfl
    · have heq2 : (stepToggle s op).lookupHabit hid = s.lookupHabit hid := by
        unfold HabitsApp.lookupHabit
        rcases hcase with hset | hset <;>
          rw [hset, find?_setHabit_ne _ _ _ _ heq]
      rw [heq2]
      exact ⟨h0, hl, Or.inl rfl⟩

/-- C8: over any sequence of toggle operations on due dates, starting
from a state satisfying the streak invariant, `longest_streak ≥
current_streak` holds in the resulting state for every habit, and no
habit's `longest_streak` ever decreases across the sequence. -/
theorem longest_streak_monotone (due : PyDate → Bool)
    (ops : List (Int × PyDate × Nat)) (s0 : HabitsApp)
    (hinv : habitInv s0) (hdue : ∀ op ∈ ops, due op.2.1 = true) :
    habitInv (ops.foldl stepToggle s0) ∧
    (∀ hid h0 h1, s0.lookupHabit hid = some h0 →
      (ops.foldl stepToggle s0).lookupHabit hid = some h1 →
      h0.longest_streak ≤ h1.longest_streak) := by
  induction ops generalizing s0 with
  | nil =>
    refine ⟨hinv, ?_⟩
    intro hid h0 h1 ha hb
    rw [List.foldl_nil, ha] at hb
    cases Option.some.inj hb
    exact le_refl _
  | cons op rest ih =>
    have hinv1 : habitInv (stepToggle s0 op) := by
      intro p hp
      rcases stepToggle_habits_cases s0 op with hsame | ⟨habit, hhab, hcase⟩
      · exact hinv p (hsame ▸ hp)
      · have hhi : habit.current_streak ≤ habit.longest_streak := by
          rcases lookupHabit_mem s0 op.1 habit hhab with ⟨k, hk⟩
          exact hinv (k, habit) hk
        rcases hcase with hset | hset
        · rw [hset] at hp
          rcases mem_setHabit _ _ _ p hp with hold | hnew
          · exact hinv p hold
          · rw [hnew]
            exact update_streak_inv habit false op.2.2 hhi
        · rw [hset] at hp
          rcases mem_setHabit _ _ _ p hp with hold | hnew
          · exact hinv p hold
          · rw [hnew]
            exact update_streak_inv habit true op.2.2 hhi
    rw [List.foldl_cons]
    obtain ⟨hfin, hmono⟩ := ih (stepToggle s0 op) hinv1
      (fun o ho => hdue o (List.mem_cons_of_mem _ ho))
    refine ⟨hfin, ?_⟩
    intro hid h0 h1 ha hb
    rcases stepToggle_lookup_fwd s0 op hid h0 ha with ⟨hmid, hmidl, hcase⟩
    have hrest : hmid.longest_streak ≤ h1.longest_streak :=
      hmono hid hmid h1 hmidl hb
    rcases hcase with heq | ⟨b, heq⟩
    · rw [heq] at hrest
      exact hrest
    · rw [heq] at hrest
      exact le_trans (update_streak_longest_mono h0 b op.2.2) hrest

/-- Witness for `longest_streak_monotone`: one daily-due toggle on
`sampleApp`. -/
theorem longest_streak_monotone_witness :
    habitInv ([((1 : Int), ((⟨2026, 1, 5⟩ : PyDate), (4 : Nat)))].foldl
      stepToggle sampleApp) ∧
    (∀ hid h0 h1, sampleApp.lookupHabit hid = some h0 →
      ([((1 : Int), ((⟨2026, 1, 5⟩ : PyDate), (4 : Nat)))].foldl
        stepToggle sampleApp).lookupHabit hid = some h1 →
      h0.longest_streak ≤ h1.longest_streak) :=
  longest_streak_monotone (fun _ => true)
    [(1, ⟨2026, 1, 5⟩, 4)] sampleApp (by decide) (by decide)

/-- C7: starting from a duplicate-free completions table, any sequence of
toggle requests keeps the table duplicate-free: at most one completion
row ever exists per (habit, date) pair. -/
theorem completion_rows_unique (ops : List (Int × PyDate × Nat))
    (s0 : HabitsApp) (h0 : s0.completions.Nodup) :
    ((ops.foldl stepToggle s0).completions).Nodup := by
  induction ops generalizing s0 with
  | nil => exact h0
  | cons op rest ih =>
    rw [List.foldl_cons]
    apply ih
    rcases stepToggle_completions_cases s0 op with hsame | herase | ⟨happ, hnone⟩
    · rw [hsame]; exact h0
    · rw [herase]
      exact (List.eraseP_sublist _).nodup h0
    · rw [happ]
      rw [List.nodup_append]
      refine ⟨h0, List.nodup_singleton _, ?_⟩
      intro x hx hxs
      have hxe : x = (op.1, op.2.1) := by simpa using hxs
      have hnp := List.find?_eq_none.mp hnone x hx
      rw [hxe] at hnp
      apply hnp
      simp [matchesRow]

/-- Witness for `completion_rows_unique`: three repeated toggles of the
same (habit, date) pair on `sampleApp` (insert, delete, insert) leave a
duplicate-free table. -/
theorem completion_rows_unique_witness :
    (([((1 : Int), ((⟨2026, 1, 5⟩ : PyDate), (0 : Nat))),
       (1, (⟨2026, 1, 5⟩, 1)), (1, (⟨2026, 1, 5⟩, 2))].foldl
      stepToggle sampleApp).completions).Nodup :=
  completion_rows_unique
    [(1, (⟨2026, 1, 5⟩, 0)), (1, (⟨2026, 1, 5⟩, 1)), (1, (⟨2026, 1, 5⟩, 2))]
    sampleApp (by decide)

/-- One goal operation preserves the completion latch. -/
theorem applyGoalOp_latch (g : GoalState) (op : GoalOp) :
    (g.is_completed = true → (applyGoalOp g op).is_completed = true) ∧
    (g.completed_at ≠ none → (applyGoalOp g op).completed_at ≠ none) := by
  cases op with
  | removeTx i => exact ⟨fun h => h, fun h => h⟩
  | contribute amount d nowT =>
    unfold applyGoalOp GoalState.add_transaction_core
    dsimp only
    by_cases hc : g.is_completed = false ∧
        g.get_saved_amount + amount ≥ g.target_amount
    · rw [if_pos hc]
      exact ⟨fun _ => rfl, fun _ => by simp⟩
    · rw [if_neg hc]
      exact ⟨fun h => h, fun h => h⟩

/-- C4: once a savings goal is completed, it stays completed under every
later operation — further contributions or removal of any (or all)
linked transactions — and a stamped `completed_at` is never cleared. -/
theorem goal_completion_latch (ops : List GoalOp) (g : GoalState) :
    (g.is_completed = true → (ops.foldl applyGoalOp g).is_completed = true) ∧
    (g.completed_at ≠ none → (ops.foldl applyGoalOp g).completed_at ≠ none) := by
  induction ops generalizing g with
  | nil => exact ⟨fun h => h, fun h => h⟩
  | cons op rest ih =>
    rw [List.foldl_cons]
    obtain ⟨hstep1, hstep2⟩ := applyGoalOp_latch g op
    obtain ⟨hr1, hr2⟩ := ih (applyGoalOp g op)
    exact ⟨fun h => hr1 (hstep1 h), fun h => hr2 (hstep2 h)⟩

/-- Witness for `goal_completion_latch`: removing the only linked
transaction of a completed goal (saved amount recomputes to 0) leaves
`is_completed` true. -/
theorem goal_completion_latch_witness :
    ([GoalOp.removeTx 0].foldl applyGoalOp
      (⟨1, 100, [100], true, some 3⟩ : GoalState)).is_completed = true :=
  (goal_completion_latch [GoalOp.removeTx 0] ⟨1, 100, [100], true, some 3⟩).1 rfl

/-- C2 counterexample: with a daily schedule, a single toggle on day 0
and today = day 1, the incremental counter holds 1 while the backward
scan yields 0 (day 1 is due and uncompleted), so the two paths disagree
on an arbitrary completion history. -/
theorem streak_backscan_counterexample :
    ¬ (get_current_streak (fun _ => true)
        (fun d => decide (d ∈ ([0].foldl toggleDay ⟨0, []⟩).completedDays)) 1
       = ([0].foldl toggleDay ⟨0, []⟩).current_streak) := by decide

/-- Toggling a duplicate-free list of fresh days records them all and
advances the counter by their number. -/
theorem foldl_toggle_fresh (l : List Nat) (st : StreakState)
    (hfresh : ∀ d ∈ l, d ∉ st.completedDays) (hnd : l.Nodup) :
    (l.foldl toggleDay st).completedDays = st.completedDays ++ l ∧
    (l.foldl toggleDay st).current_streak = st.current_streak + l.length := by
  revert hfresh hnd
  induction l generalizing st with
  | nil =>
    intro _ _
    simp
  | cons d rest ih =>
    intro hfresh hnd
    have hd : d ∉ st.completedDays := hfresh d (List.mem_cons_self d rest)
    rw [List.foldl_cons]
    have hstep : toggleDay st d =
        ⟨st.current_streak + 1, st.completedDays ++ [d]⟩ := by
      unfold toggleDay
      rw [if_neg hd]
    rw [hstep]
    have hnd2 : rest.Nodup := (List.nodup_cons.mp hnd).2
    have hfresh2 : ∀ e ∈ rest,
        e ∉ ((⟨st.current_streak + 1, st.completedDays ++ [d]⟩ :
          StreakState)).completedDays := by
      intro e he hcon
      rcases List.mem_append.mp hcon with h1 | h2
      · exact hfresh e (List.mem_cons_of_mem d he) h1
      · have hed : e = d := by simpa using h2
        rw [hed] at he
        exact (List.nodup_cons.mp hnd).1 he
    obtain ⟨h1, h2⟩ :=
      ih ⟨st.current_streak + 1, st.completedDays ++ [d]⟩ hfresh2 hnd2
    constructor
    · rw [h1]
      simp
    · rw [h2, List.length_cons]
      dsimp only
      omega

/-- The backward scan only inspects days up to today. -/
theorem scan_congr (due c1 c2 : Nat → Bool) (t : Nat)
    (h : ∀ d, d ≤ t → c1 d = c2 d) :
    get_current_streak due c1 t = get_current_streak due c2 t := by
  induction t with
  | zero =>
    simp only [get_current_streak]
    rw [h 0 (le_refl 0)]
  | succ t ih =>
    simp only [get_current_streak]
    rw [h (t + 1) (le_refl _),
      ih (fun d hd => h d (le_trans hd (Nat.le_succ t)))]

/-- When the completed days are exactly the due days of the window
`[a, t]`, the backward scan from any `u ≤ t` counts the due days of
`[a, u]`. -/
theorem scan_window (due : Nat → Bool) (a t : Nat) :
    ∀ u, u ≤ t →
      get_current_streak due
        (fun d => due d && decide (a ≤ d) && decide (d ≤ t)) u
        = ((List.range (u + 1)).filter fun d =>
            due d && decide (a ≤ d)).length := by
  intro u
  induction u with
  | zero =>
    intro hu
    simp only [get_current_streak]
    by_cases hdue : due 0 = true
    · rw [if_pos hdue]
      by_cases ha : a ≤ 0
      · simp [List.range_succ, List.filter, hdue, ha, hu]
      · simp [List.range_succ, List.filter, hdue, ha]
    · rw [if_neg hdue]
      simp only [Bool.not_eq_true] at hdue
      simp [List.range_succ, List.filter, hdue]
  | succ u ih =>
    intro hu
    have ih2 := ih (Nat.le_of_succ_le hu)
    simp only [get_current_streak]
    have hsplit : ((List.range (u + 1 + 1)).filter fun d =>
        due d && decide (a ≤ d)).length
        = ((List.range (u + 1)).filter fun d =>
            due d && decide (a ≤ d)).length
          + (if (due (u + 1) && decide (a ≤ u + 1)) = true then 1 else 0) := by
      rw [List.range_succ, List.filter_append, List.length_append]
      congr 1
      rw [List.filter_cons, List.filter_nil]
      split <;> simp
    by_cases hdue : due (u + 1) = true
    case neg =>
      rw [if_neg hdue]
      simp only [Bool.not_eq_true] at hdue
      rw [ih2, hsplit]
      simp [hdue]
    case pos =>
      rw [if_pos hdue]
      by_cases ha : a ≤ u + 1
      · have hc : (due (u + 1) && decide (a ≤ u + 1) &&
            decide (u + 1 ≤ t)) = true := by
          simp [hdue, ha, hu]
        rw [if_pos hc, ih2, hsplit]
        simp [hdue, ha]
      · have hc : (due (u + 1) && decide (a ≤ u + 1) &&
            decide (u + 1 ≤ t)) = false := by
          simp [ha]
        rw [if_neg (by simp [hc])]
        have hall : ((List.range (u + 1 + 1)).filter fun d =>
            due d && decide (a ≤ d)) = [] := by
          rw [List.filter_eq_nil_iff]
          intro d hd
          have hd2 : d ≤ u + 1 := Nat.lt_succ_iff.mp (List.mem_range.mp hd)
          have hna : ¬ a ≤ d := fun hle => ha (le_trans hle hd2)
          simp [hna]
        rw [hall]
        rfl

/-- C2 amended: the incremental counter counts every stored completion,
so it can disagree with the backward scan after a missed due day (see the
counterexample); the two paths agree whenever the completion history
consists of exactly the due days of a contiguous window `[a, today]`,
each toggled on once, for any due-day schedule. -/
theorem streak_backscan_agreement (due : Nat → Bool) (a t : Nat) :
    get_current_streak due
      (fun d => decide (d ∈
        ((((List.range (t + 1)).filter fun e => due e && decide (a ≤ e)).foldl
          toggleDay ⟨0, []⟩).completedDays))) t
      = (((List.range (t + 1)).filter fun e => due e && decide (a ≤ e)).foldl
          toggleDay ⟨0, []⟩).current_streak := by
  have hnd : ((List.range (t + 1)).filter fun e =>
      due e && decide (a ≤ e)).Nodup :=
    List.Nodup.filter _ (List.nodup_range _)
  obtain ⟨hdays, hcs⟩ := foldl_toggle_fresh
    ((List.range (t + 1)).filter fun e => due e && decide (a ≤ e))
    ⟨0, []⟩ (by intro d hd hcon; simp at hcon) hnd
  rw [hcs]
  have hcong : ∀ d, d ≤ t →
      (decide (d ∈
        ((((List.range (t + 1)).filter fun e => due e && decide (a ≤ e)).foldl
          toggleDay ⟨0, []⟩).completedDays)) : Bool)
        = (due d && decide (a ≤ d) && decide (d ≤ t)) := by
    intro d hd
    rw [hdays]
    simp only [List.nil_append]
    by_cases hdue : due d = true
    · by_cases ha : a ≤ d
      · simp [List.mem_filter, List.mem_range, hdue, ha,
          Nat.lt_succ_iff, hd]
      · simp [List.mem_filter, hdue, ha]
    · simp [List.mem_filter, hdue]
  rw [scan_congr due _ _ t hcong]
  rw [scan_window due a t t (le_refl t)]
  dsimp only
  omega

end SparkOS
